import Mathlib

/-!
Verification of the `pid-rs` PID controller (`src/lib.rs`).

The Rust struct `PidController` and its methods are shallowly embedded below.
Rust `f64` values are modelled as rationals `ℚ`: every operation the
controller performs (addition, subtraction, multiplication, division by `dt`,
strict comparison) is exact rational arithmetic on the inputs considered, and
the specification states its properties over real arithmetic.  Division by
zero in `ℚ` yields `0`; the division-by-`dt` hazard of `step` is modelled
explicitly by `stepChecked`, which fails exactly when `dt = 0`.
-/

/-- Embedding of the Rust struct `PidController` (src/lib.rs, lines 1-40). -/
structure PidController where
  dt : ℚ
  kp : ℚ
  ki : ℚ
  kd : ℚ
  clamp_lo : ℚ
  clamp_hi : ℚ
  smooth : ℚ
  p : ℚ
  i : ℚ
  d : ℚ
  unclamped : Bool
  e_prev : ℚ
deriving DecidableEq

/-- Embedding of `PidController::new` (src/lib.rs, lines 43-58). -/
def PidController.new (dt : ℚ) (clamp : ℚ × ℚ) : PidController :=
  { dt := dt
    kp := 0
    ki := 0
    kd := 0
    clamp_lo := clamp.1
    clamp_hi := clamp.2
    smooth := 1
    p := 0
    i := 0
    d := 0
    unclamped := true
    e_prev := 0 }

/-- Embedding of `PidController::step` (src/lib.rs, lines 61-74).
Returns the updated state together with the returned output `u`. -/
def PidController.step (s : PidController) (e : ℚ) : PidController × ℚ :=
  let i := if s.unclamped then s.i + s.dt * e else s.i
  let d := s.smooth * (e - s.e_prev) / s.dt + (1 - s.smooth) * s.d
  let u := s.kp * e + s.ki * i + s.kd * d
  ({ s with
      i := i
      d := d
      unclamped := decide (s.clamp_lo < u ∧ u < s.clamp_hi)
      e_prev := e }, u)

/-- The single division `step` performs is by `dt` (src/lib.rs, line 66).
`stepChecked` makes that hazard explicit: it fails exactly when `dt = 0`
and otherwise agrees with `step`. -/
def PidController.stepChecked (s : PidController) (e : ℚ) :
    Option (PidController × ℚ) :=
  if s.dt = 0 then none else some (s.step e)

/-- Embedding of `PidController::set_kp` (src/lib.rs, lines 76-80). -/
def PidController.set_kp (s : PidController) (kp : ℚ) : PidController :=
  if 0 ≤ kp then { s with kp := kp } else s

/-- Embedding of `PidController::set_ki` (src/lib.rs, lines 82-86). -/
def PidController.set_ki (s : PidController) (ki : ℚ) : PidController :=
  if 0 ≤ ki then { s with ki := ki } else s

/-- Embedding of `PidController::set_kd` (src/lib.rs, lines 88-92). -/
def PidController.set_kd (s : PidController) (kd : ℚ) : PidController :=
  if 0 ≤ kd then { s with kd := kd } else s

/-- Embedding of `PidController::set_smooth` (src/lib.rs, lines 94-98);
`(0.0..=1.0).contains(&smooth)` is `0 ≤ smooth ∧ smooth ≤ 1`. -/
def PidController.set_smooth (s : PidController) (smooth : ℚ) : PidController :=
  if 0 ≤ smooth ∧ smooth ≤ 1 then { s with smooth := smooth } else s

/-- Run `step` on each error of a list in order, keeping the final state. -/
def PidController.runSteps (s : PidController) : List ℚ → PidController
  | [] => s
  | e :: rest => PidController.runSteps (s.step e).1 rest

/-- One mutating operation of the public API. -/
inductive Op where
  | setKp (v : ℚ)
  | setKi (v : ℚ)
  | setKd (v : ℚ)
  | setSmooth (v : ℚ)
  | step (e : ℚ)
deriving DecidableEq

/-- Apply one mutating operation to a controller state. -/
def applyOp (s : PidController) : Op → PidController
  | .setKp v => s.set_kp v
  | .setKi v => s.set_ki v
  | .setKd v => s.set_kd v
  | .setSmooth v => s.set_smooth v
  | .step e => (s.step e).1

/-- Apply a list of mutating operations in order. -/
def runOps (s : PidController) : List Op → PidController
  | [] => s
  | op :: rest => runOps (applyOp s op) rest

/-- The gain/smoothing invariants stated in the data model. -/
def GainsInv (s : PidController) : Prop :=
  0 ≤ s.kp ∧ 0 ≤ s.ki ∧ 0 ≤ s.kd ∧ 0 ≤ s.smooth ∧ s.smooth ≤ 1

/- ------------------------------------------------------------------ -/
/- Helper lemmas                                                      -/
/- ------------------------------------------------------------------ -/

/-- `step` rewrites none of the configuration fields. -/
theorem step_keeps_params (s : PidController) (e : ℚ) :
    ((s.step e).1).dt = s.dt ∧ ((s.step e).1).kp = s.kp ∧
    ((s.step e).1).ki = s.ki ∧ ((s.step e).1).kd = s.kd ∧
    ((s.step e).1).clamp_lo = s.clamp_lo ∧ ((s.step e).1).clamp_hi = s.clamp_hi ∧
    ((s.step e).1).smooth = s.smooth ∧ ((s.step e).1).p = s.p :=
  ⟨rfl, rfl, rfl, rfl, rfl, rfl, rfl, rfl⟩

/-- The flag written by `step` is the strict two-sided comparison of the
returned output against the clamp bounds. -/
theorem step_flag_eq (s : PidController) (e : ℚ) :
    ((s.step e).1).unclamped =
      decide (s.clamp_lo < (s.step e).2 ∧ (s.step e).2 < s.clamp_hi) := rfl

/-- Configuration fields survive any number of `step` calls. -/
theorem runSteps_keeps_params (es : List ℚ) :
    ∀ s : PidController,
      (PidController.runSteps s es).dt = s.dt ∧
      (PidController.runSteps s es).kp = s.kp ∧
      (PidController.runSteps s es).ki = s.ki ∧
      (PidController.runSteps s es).kd = s.kd ∧
      (PidController.runSteps s es).clamp_lo = s.clamp_lo ∧
      (PidController.runSteps s es).clamp_hi = s.clamp_hi ∧
      (PidController.runSteps s es).smooth = s.smooth := by
  induction es with
  | nil => intro s; exact ⟨rfl, rfl, rfl, rfl, rfl, rfl, rfl⟩
  | cons e rest ih => intro s; exact ih (s.step e).1

/-- With zero gains the output of `step` is `0`. -/
theorem step_zero_gain (s : PidController) (e : ℚ)
    (hkp : s.kp = 0) (hki : s.ki = 0) (hkd : s.kd = 0) :
    (s.step e).2 = 0 := by
  simp [PidController.step, hkp, hki, hkd]

/-- With zero gains and clamp bounds straddling `0`, `step` sets the flag. -/
theorem step_zero_gain_flag (s : PidController) (e : ℚ)
    (hkp : s.kp = 0) (hki : s.ki = 0) (hkd : s.kd = 0)
    (hlo : s.clamp_lo < 0) (hhi : 0 < s.clamp_hi) :
    ((s.step e).1).unclamped = true := by
  rw [step_flag_eq, step_zero_gain s e hkp hki hkd]
  exact decide_eq_true ⟨hlo, hhi⟩

/-- With `smooth = 0` the derivative state is a fixed point of `step`. -/
theorem runSteps_d_of_smooth_eq_zero (es : List ℚ) :
    ∀ s : PidController, s.smooth = 0 →
      (PidController.runSteps s es).d = s.d := by
  induction es with
  | nil => intro s _; rfl
  | cons e rest ih =>
      intro s h
      have hs : ((s.step e).1).smooth = 0 := h
      have hd : ((s.step e).1).d = s.d := by
        simp [PidController.step, h]
      have hrun : PidController.runSteps s (e :: rest) =
          PidController.runSteps (s.step e).1 rest := rfl
      rw [hrun, ih _ hs, hd]

/-- Once the flag is down and the clamp bounds are inverted, any run of
`step` calls keeps the flag down and the integral state frozen. -/
theorem runSteps_frozen (es : List ℚ) :
    ∀ s : PidController, s.clamp_hi ≤ s.clamp_lo → s.unclamped = false →
      (PidController.runSteps s es).unclamped = false ∧
      (PidController.runSteps s es).i = s.i := by
  induction es with
  | nil => intro s _ hf; exact ⟨hf, rfl⟩
  | cons e rest ih =>
      intro s hle hf
      have hflag : ((s.step e).1).unclamped = false := by
        rw [step_flag_eq]
        apply decide_eq_false
        rintro ⟨h1, h2⟩
        exact absurd (h1.trans h2) (not_lt.mpr hle)
      have hi : ((s.step e).1).i = s.i := by
        simp [PidController.step, hf]
      have h := ih (s.step e).1 hle hflag
      exact ⟨h.1, h.2.trans hi⟩

/-- Setters do not touch `dt`, the clamp bounds or `p`; neither does `step`. -/
theorem applyOp_keeps_fixed (s : PidController) (op : Op) :
    (applyOp s op).dt = s.dt ∧ (applyOp s op).clamp_lo = s.clamp_lo ∧
    (applyOp s op).clamp_hi = s.clamp_hi ∧ (applyOp s op).p = s.p := by
  cases op with
  | setKp v =>
      by_cases hv : 0 ≤ v
      · rw [show applyOp s (Op.setKp v) = { s with kp := v } from if_pos hv]
        exact ⟨rfl, rfl, rfl, rfl⟩
      · rw [show applyOp s (Op.setKp v) = s from if_neg hv]
        exact ⟨rfl, rfl, rfl, rfl⟩
  | setKi v =>
      by_cases hv : 0 ≤ v
      · rw [show applyOp s (Op.setKi v) = { s with ki := v } from if_pos hv]
        exact ⟨rfl, rfl, rfl, rfl⟩
      · rw [show applyOp s (Op.setKi v) = s from if_neg hv]
        exact ⟨rfl, rfl, rfl, rfl⟩
  | setKd v =>
      by_cases hv : 0 ≤ v
      · rw [show applyOp s (Op.setKd v) = { s with kd := v } from if_pos hv]
        exact ⟨rfl, rfl, rfl, rfl⟩
      · rw [show applyOp s (Op.setKd v) = s from if_neg hv]
        exact ⟨rfl, rfl, rfl, rfl⟩
  | setSmooth v =>
      by_cases hv : 0 ≤ v ∧ v ≤ 1
      · rw [show applyOp s (Op.setSmooth v) = { s with smooth := v } from
          if_pos hv]
        exact ⟨rfl, rfl, rfl, rfl⟩
      · rw [show applyOp s (Op.setSmooth v) = s from if_neg hv]
        exact ⟨rfl, rfl, rfl, rfl⟩
  | step e => exact ⟨rfl, rfl, rfl, rfl⟩

/-- Any single operation preserves the gain/smoothing invariants. -/
theorem applyOp_gainsInv (s : PidController) (op : Op) (h : GainsInv s) :
    GainsInv (applyOp s op) := by
  obtain ⟨h1, h2, h3, h4, h5⟩ := h
  cases op with
  | setKp v =>
      by_cases hv : 0 ≤ v
      · rw [show applyOp s (Op.setKp v) = { s with kp := v } from if_pos hv]
        exact ⟨hv, h2, h3, h4, h5⟩
      · rw [show applyOp s (Op.setKp v) = s from if_neg hv]
        exact ⟨h1, h2, h3, h4, h5⟩
  | setKi v =>
      by_cases hv : 0 ≤ v
      · rw [show applyOp s (Op.setKi v) = { s with ki := v } from if_pos hv]
        exact ⟨h1, hv, h3, h4, h5⟩
      · rw [show applyOp s (Op.setKi v) = s from if_neg hv]
        exact ⟨h1, h2, h3, h4, h5⟩
  | setKd v =>
      by_cases hv : 0 ≤ v
      · rw [show applyOp s (Op.setKd v) = { s with kd := v } from if_pos hv]
        exact ⟨h1, h2, hv, h4, h5⟩
      · rw [show applyOp s (Op.setKd v) = s from if_neg hv]
        exact ⟨h1, h2, h3, h4, h5⟩
  | setSmooth v =>
      by_cases hv : 0 ≤ v ∧ v ≤ 1
      · rw [show applyOp s (Op.setSmooth v) = { s with smooth := v } from
          if_pos hv]
        exact ⟨h1, h2, h3, hv.1, hv.2⟩
      · rw [show applyOp s (Op.setSmooth v) = s from if_neg hv]
        exact ⟨h1, h2, h3, h4, h5⟩
  | step e => exact ⟨h1, h2, h3, h4, h5⟩

/-- The gain/smoothing invariants are preserved by any operation sequence. -/
theorem runOps_gainsInv (ops : List Op) :
    ∀ s : PidController, GainsInv s → GainsInv (runOps s ops) := by
  induction ops with
  | nil => intro s h; exact h
  | cons op rest ih => intro s h; exact ih _ (applyOp_gainsInv s op h)

/-- A freshly constructed controller satisfies the gain invariants. -/
theorem new_gainsInv (dt : ℚ) (clamp : ℚ × ℚ) :
    GainsInv (PidController.new dt clamp) :=
  ⟨le_rfl, le_rfl, le_rfl, zero_le_one, le_rfl⟩

/-- `p` is a fixed point of every operation. -/
theorem runOps_p (ops : List Op) :
    ∀ s : PidController, (runOps s ops).p = s.p := by
  induction ops with
  | nil => intro s; rfl
  | cons op rest ih =>
      intro s
      exact (ih (applyOp s op)).trans (applyOp_keeps_fixed s op).2.2.2

/-- `dt`, `clamp_lo` and `clamp_hi` are fixed points of every operation. -/
theorem runOps_fixed (ops : List Op) :
    ∀ s : PidController, (runOps s ops).dt = s.dt ∧
      (runOps s ops).clamp_lo = s.clamp_lo ∧
      (runOps s ops).clamp_hi = s.clamp_hi := by
  induction ops with
  | nil => intro s; exact ⟨rfl, rfl, rfl⟩
  | cons op rest ih =>
      intro s
      obtain ⟨ha, hb, hc, _⟩ := applyOp_keeps_fixed s op
      obtain ⟨ia, ib, ic⟩ := ih (applyOp s op)
      exact ⟨ia.trans ha, ib.trans hb, ic.trans hc⟩

/- ------------------------------------------------------------------ -/
/- Claim theorems                                                     -/
/- ------------------------------------------------------------------ -/

/-- C1: a call to `step e` adds `dt * e` to the integral state exactly when
the `unclamped` flag set by the previous call is true, and otherwise leaves
it unchanged; in the saturation scenario (`new 1 (-10, 10)` with gains
`kp = 20, ki = 1, kd = 0`, then `step 1`) the raw output `21` exceeds
`clamp_hi = 10`, the flag goes false, and the immediately following `step 1`
leaves the integral state unchanged. -/
theorem anti_windup_gate :
    (∀ (s : PidController) (e : ℚ),
       (s.unclamped = true → ((s.step e).1).i = s.i + s.dt * e) ∧
       (s.unclamped = false → ((s.step e).1).i = s.i)) ∧
    ((((((PidController.new 1 (-10, 10)).set_kp 20).set_ki 1).set_kd
        0).step 1).1.unclamped = false ∧
     (((((((PidController.new 1 (-10, 10)).set_kp 20).set_ki 1).set_kd
        0).step 1).1.step 1).1.i =
      ((((((PidController.new 1 (-10, 10)).set_kp 20).set_ki 1).set_kd
        0).step 1).1.i))) := by
  constructor
  · intro s e
    constructor
    · intro h; simp [PidController.step, h]
    · intro h; simp [PidController.step, h]
  · constructor <;>
      norm_num [PidController.new, PidController.set_kp, PidController.set_ki,
        PidController.set_kd, PidController.step]

/-- Witness for C1 at a concrete input: the fresh controller has
`unclamped = true`, so `step 2` adds `dt * 2` to the integral state. -/
theorem anti_windup_gate_witness :
    (((PidController.new 1 (-10, 10)).step 2).1).i =
      (PidController.new 1 (-10, 10)).i +
        (PidController.new 1 (-10, 10)).dt * 2 :=
  (anti_windup_gate.1 (PidController.new 1 (-10, 10)) 2).1 rfl

/-- C2: from `new 1 (-10, 10)` with `kp = 2, ki = 1, kd = 0`, the first
`step 1` returns `3` and leaves `i = 1`, `unclamped = true`, `e_prev = 1`;
the second `step 1` returns `4` and leaves `i = 2` and `d = 0`. -/
theorem deterministic_scenario :
    (((((PidController.new 1 (-10, 10)).set_kp 2).set_ki 1).set_kd
        0).step 1).2 = 3 ∧
    (((((PidController.new 1 (-10, 10)).set_kp 2).set_ki 1).set_kd
        0).step 1).1.i = 1 ∧
    (((((PidController.new 1 (-10, 10)).set_kp 2).set_ki 1).set_kd
        0).step 1).1.unclamped = true ∧
    (((((PidController.new 1 (-10, 10)).set_kp 2).set_ki 1).set_kd
        0).step 1).1.e_prev = 1 ∧
    ((((((PidController.new 1 (-10, 10)).set_kp 2).set_ki 1).set_kd
        0).step 1).1.step 1).2 = 4 ∧
    ((((((PidController.new 1 (-10, 10)).set_kp 2).set_ki 1).set_kd
        0).step 1).1.step 1).1.i = 2 ∧
    ((((((PidController.new 1 (-10, 10)).set_kp 2).set_ki 1).set_kd
        0).step 1).1.step 1).1.d = 0 := by
  norm_num [PidController.new, PidController.set_kp, PidController.set_ki,
    PidController.set_kd, PidController.step]

/-- C3: every `step e` updates the derivative state by the smoothing
recurrence; on a fresh controller (`smooth = 1`, `e_prev = 0`) one step
yields exactly `(e1 - 0) / dt`; and with `smooth` set to `0` the derivative
state stays at its initial value `0` over any sequence of steps. -/
theorem derivative_smoothing :
    (∀ (s : PidController) (e : ℚ),
       ((s.step e).1).d =
         s.smooth * (e - s.e_prev) / s.dt + (1 - s.smooth) * s.d) ∧
    (∀ (dt : ℚ) (clamp : ℚ × ℚ) (e1 : ℚ),
       (((PidController.new dt clamp).step e1).1).d = (e1 - 0) / dt) ∧
    (∀ (dt : ℚ) (clamp : ℚ × ℚ) (es : List ℚ),
       (PidController.runSteps
          ((PidController.new dt clamp).set_smooth 0) es).d = 0) := by
  refine ⟨fun s e => rfl, ?_, ?_⟩
  · intro dt clamp e1
    show (1 : ℚ) * (e1 - 0) / dt + (1 - 1) * 0 = (e1 - 0) / dt
    simp
  · intro dt clamp es
    have hset : (PidController.new dt clamp).set_smooth 0 =
        { PidController.new dt clamp with smooth := 0 } :=
      if_pos ⟨le_rfl, zero_le_one⟩
    have h0 : ((PidController.new dt clamp).set_smooth 0).smooth = 0 := by
      rw [hset]
    have hd0 : ((PidController.new dt clamp).set_smooth 0).d = 0 := by
      rw [hset]; rfl
    exact (runSteps_d_of_smooth_eq_zero es _ h0).trans hd0

/-- C4: `step e` returns the raw combination `kp*e + ki*i + kd*d` computed
from the post-update `i` and `d`, unclamped, and the only use of the clamp
bounds is the strict two-sided comparison recorded in the flag. -/
theorem raw_output_and_flag :
    ∀ (s : PidController) (e : ℚ),
      (s.step e).2 =
        s.kp * e + s.ki * ((s.step e).1).i + s.kd * ((s.step e).1).d ∧
      ((s.step e).1).unclamped =
        decide (s.clamp_lo < (s.step e).2 ∧ (s.step e).2 < s.clamp_hi) :=
  fun s e => ⟨rfl, rfl⟩

/-- C5: each setter stores an in-domain argument and is a complete no-op on
an out-of-domain one (in particular `set_kp (-1)` and `set_smooth (3/2)`
retain the prior values), and the invariants `kp, ki, kd ≥ 0` and
`smooth ∈ [0, 1]` hold after every sequence of operations from a
constructor. -/
theorem setter_domains :
    (∀ (s : PidController) (v : ℚ),
       (0 ≤ v → s.set_kp v = { s with kp := v }) ∧
       (¬ 0 ≤ v → s.set_kp v = s) ∧
       (0 ≤ v → s.set_ki v = { s with ki := v }) ∧
       (¬ 0 ≤ v → s.set_ki v = s) ∧
       (0 ≤ v → s.set_kd v = { s with kd := v }) ∧
       (¬ 0 ≤ v → s.set_kd v = s) ∧
       (0 ≤ v ∧ v ≤ 1 → s.set_smooth v = { s with smooth := v }) ∧
       (¬ (0 ≤ v ∧ v ≤ 1) → s.set_smooth v = s)) ∧
    (∀ s : PidController,
       (s.set_kp (-1)).kp = s.kp ∧ (s.set_smooth (3 / 2)).smooth = s.smooth) ∧
    (∀ (dt : ℚ) (clamp : ℚ × ℚ) (ops : List Op),
       0 ≤ (runOps (PidController.new dt clamp) ops).kp ∧
       0 ≤ (runOps (PidController.new dt clamp) ops).ki ∧
       0 ≤ (runOps (PidController.new dt clamp) ops).kd ∧
       0 ≤ (runOps (PidController.new dt clamp) ops).smooth ∧
       (runOps (PidController.new dt clamp) ops).smooth ≤ 1) := by
  refine ⟨?_, ?_, ?_⟩
  · intro s v
    exact ⟨fun h => if_pos h, fun h => if_neg h, fun h => if_pos h,
      fun h => if_neg h, fun h => if_pos h, fun h => if_neg h,
      fun h => if_pos h, fun h => if_neg h⟩
  · intro s
    constructor
    · rw [show s.set_kp (-1) = s from if_neg (by norm_num)]
    · rw [show s.set_smooth (3 / 2) = s from if_neg (by norm_num)]
  · intro dt clamp ops
    exact runOps_gainsInv ops _ (new_gainsInv dt clamp)

/-- Witness for C5 at a concrete input: `set_kp 2` on a fresh controller
stores the in-domain gain `2`. -/
theorem setter_domains_witness :
    (PidController.new 1 (-10, 10)).set_kp 2 =
      { PidController.new 1 (-10, 10) with kp := 2 } :=
  (setter_domains.1 (PidController.new 1 (-10, 10)) 2).1 (by norm_num)

/-- C6: for a controller with all gains `0` and clamp bounds straddling `0`,
every `step` call from every reachable state returns `0` and leaves the
`unclamped` flag true. -/
theorem zero_gain_step :
    ∀ s : PidController, s.kp = 0 → s.ki = 0 → s.kd = 0 →
      s.clamp_lo < 0 → 0 < s.clamp_hi →
      ∀ (es : List ℚ) (e : ℚ),
        ((PidController.runSteps s es).step e).2 = 0 ∧
        (((PidController.runSteps s es).step e).1).unclamped = true := by
  intro s hkp hki hkd hlo hhi es e
  obtain ⟨_, hkp2, hki2, hkd2, hlo2, hhi2, _⟩ := runSteps_keeps_params es s
  refine ⟨step_zero_gain _ e (hkp2.trans hkp) (hki2.trans hki)
      (hkd2.trans hkd), step_zero_gain_flag _ e (hkp2.trans hkp)
      (hki2.trans hki) (hkd2.trans hkd) ?_ ?_⟩
  · rw [hlo2]; exact hlo
  · rw [hhi2]; exact hhi

/-- Witness for C6 at a concrete input: from `new 1 (-1, 1)` (all gains
zero), after `step 5` the call `step 7` returns `0` with the flag true. -/
theorem zero_gain_step_witness :
    ((PidController.runSteps (PidController.new 1 (-1, 1)) [5]).step 7).2
        = 0 ∧
    (((PidController.runSteps (PidController.new 1 (-1, 1)) [5]).step
        7).1).unclamped = true :=
  zero_gain_step (PidController.new 1 (-1, 1)) rfl rfl rfl
    (by norm_num [PidController.new]) (by norm_num [PidController.new]) [5] 7

/-- C7: `step` is total — in the embedding it always returns a value — and
the one division it performs, by `dt`, is never a division by zero under the
construction precondition `dt > 0`: `stepChecked`, which fails exactly on
`dt = 0`, succeeds and agrees with `step`. -/
theorem step_total (s : PidController) (e : ℚ) (h : 0 < s.dt) :
    s.stepChecked e = some (s.step e) := by
  unfold PidController.stepChecked
  rw [if_neg h.ne']

/-- Witness for C7 at a concrete input: `dt = 1 > 0`, so the checked step
succeeds. -/
theorem step_total_witness :
    (PidController.new 1 (-10, 10)).stepChecked 1 =
      some ((PidController.new 1 (-10, 10)).step 1) :=
  step_total (PidController.new 1 (-10, 10)) 1 (by norm_num [PidController.new])

/-- C8: `step` leaves `dt, kp, ki, kd, clamp_lo, clamp_hi, smooth, p`
unchanged (it mutates only `i, d, unclamped, e_prev`), and no operation
after construction — setter or step — writes `dt`, `clamp_lo` or
`clamp_hi`. -/
theorem step_frame :
    (∀ (s : PidController) (e : ℚ),
       ((s.step e).1).dt = s.dt ∧ ((s.step e).1).kp = s.kp ∧
       ((s.step e).1).ki = s.ki ∧ ((s.step e).1).kd = s.kd ∧
       ((s.step e).1).clamp_lo = s.clamp_lo ∧
       ((s.step e).1).clamp_hi = s.clamp_hi ∧
       ((s.step e).1).smooth = s.smooth ∧ ((s.step e).1).p = s.p) ∧
    (∀ (dt : ℚ) (clamp : ℚ × ℚ) (ops : List Op),
       (runOps (PidController.new dt clamp) ops).dt = dt ∧
       (runOps (PidController.new dt clamp) ops).clamp_lo = clamp.1 ∧
       (runOps (PidController.new dt clamp) ops).clamp_hi = clamp.2) := by
  constructor
  · intro s e; exact step_keeps_params s e
  · intro dt clamp ops
    exact runOps_fixed ops (PidController.new dt clamp)

/-- C9: the field `p` is `0` at construction and no operation ever assigns
it, so it reads `0` after every sequence of operations. -/
theorem p_stays_zero (dt : ℚ) (clamp : ℚ × ℚ) (ops : List Op) :
    (runOps (PidController.new dt clamp) ops).p = 0 :=
  runOps_p ops (PidController.new dt clamp)

/-- C10: with inverted clamp bounds (`clamp_hi ≤ clamp_lo`) the strict
two-sided test is false for every output, so after the first `step` call the
flag is false, it stays false over every further sequence of calls, and no
call after the first modifies the integral state. -/
theorem inverted_clamp_latch :
    ∀ s : PidController, s.clamp_hi ≤ s.clamp_lo →
      (∀ u : ℚ, ¬ (s.clamp_lo < u ∧ u < s.clamp_hi)) ∧
      (∀ e : ℚ, ((s.step e).1).unclamped = false) ∧
      (∀ (e : ℚ) (es : List ℚ),
        (PidController.runSteps ((s.step e).1) es).unclamped = false ∧
        (PidController.runSteps ((s.step e).1) es).i = ((s.step e).1).i) := by
  intro s hle
  have hnot : ∀ u : ℚ, ¬ (s.clamp_lo < u ∧ u < s.clamp_hi) := by
    rintro u ⟨h1, h2⟩
    exact absurd (h1.trans h2) (not_lt.mpr hle)
  have hflag : ∀ e : ℚ, ((s.step e).1).unclamped = false := by
    intro e
    rw [step_flag_eq]
    exact decide_eq_false (hnot _)
  exact ⟨hnot, hflag,
    fun e es => runSteps_frozen es (s.step e).1 hle (hflag e)⟩

/-- Witness for C10 at a concrete input: with bounds `(10, -10)` the flag is
false after the first step and `step 2` then leaves `i` unchanged. -/
theorem inverted_clamp_latch_witness :
    (PidController.runSteps
        (((PidController.new 1 (10, -10)).step 1).1) [2]).unclamped = false ∧
    (PidController.runSteps
        (((PidController.new 1 (10, -10)).step 1).1) [2]).i =
      ((((PidController.new 1 (10, -10)).step 1).1)).i :=
  (inverted_clamp_latch (PidController.new 1 (10, -10))
    (by norm_num [PidController.new])).2.2 1 [2]
